import Mathlib

/-!
Verification development for the UK tender-radar extraction pipeline
(src/tender_radar.py).  Python strings are modelled as lists of characters;
the regular-expression searches of the source are hand-translated into
equivalent deterministic scanners (leftmost match, with the greedy or lazy
backtracking behaviour of each concrete pattern made explicit).  Machine
floats of the scoring code are modelled as exact rationals or reals.
-/

namespace TenderRadar

/-- Python strings are modelled as lists of characters (code points). -/
abbrev PyStr := List Char

/-- Embed a Lean string literal into the Python string model. -/
def pystr (s : String) : PyStr := s.data

/-- ASCII apostrophe, written via its code point. -/
def aposc : Char := Char.ofNat 39

/-- Right single quotation mark U+2019, as used in the auditor-report regex. -/
def rquoc : Char := Char.ofNat 8217

/-- Python str.lower, restricted to ASCII letters (the only cased characters
occurring in this pipeline). -/
def pyLower (s : PyStr) : PyStr := s.map Char.toLower

/-- The characters Python str.strip and the regex class backslash-s treat as
whitespace (ASCII subset actually occurring in extracted text). -/
def isPySpace (c : Char) : Bool :=
  c == ' ' || c == '\t' || c == '\n' || c == '\r' || c == Char.ofNat 11 || c == Char.ofNat 12

/-- Leftmost index of an occurrence of needle in hay; models Python str.find
(returning none instead of -1). -/
def findOcc (needle : PyStr) : PyStr → Option Nat
  | [] => if needle.isPrefixOf ([] : PyStr) then some 0 else none
  | c :: t => if needle.isPrefixOf (c :: t) then some 0 else (findOcc needle t).map (· + 1)

/-- Python substring containment (the in operator on str). -/
def containsSub (needle hay : PyStr) : Bool := (findOcc needle hay).isSome

/-- Case-insensitive check that pat (given lowercased) starts the string s. -/
def ciHasPre (pat s : PyStr) : Bool := pat.isPrefixOf (pyLower (s.take pat.length))

/-- Python str.strip with an explicit character set. -/
def pyStripChars (cs : PyStr) (s : PyStr) : PyStr :=
  ((s.dropWhile (cs.contains ·)).reverse.dropWhile (cs.contains ·)).reverse

/-- Python str.strip with default (whitespace) argument. -/
def pyStrip (s : PyStr) : PyStr :=
  ((s.dropWhile isPySpace).reverse.dropWhile isPySpace).reverse

/-- Helper for Python str.split with no argument: accumulates the current word
(reversed) and splits on runs of whitespace, dropping empty words. -/
def pySplitWsAux : PyStr → PyStr → List PyStr
  | acc, [] => if acc.isEmpty then [] else [acc.reverse]
  | acc, c :: t =>
    if isPySpace c then
      if acc.isEmpty then pySplitWsAux [] t else acc.reverse :: pySplitWsAux [] t
    else pySplitWsAux (c :: acc) t

/-- Python str.split() (whitespace tokenisation). -/
def pySplitWs (s : PyStr) : List PyStr := pySplitWsAux [] s

/-- Join a list of words with single spaces; models " ".join(...). -/
def joinSpace : List PyStr → PyStr
  | [] => []
  | [w] => w
  | w :: ws => w ++ ' ' :: joinSpace ws

/-- Replace non-breaking spaces by plain spaces; models text.replace(nbsp, " "). -/
def replaceNbsp (s : PyStr) : PyStr := s.map (fun c => if c == Char.ofNat 160 then ' ' else c)

/-- The AUDITOR_NORMALIZATION table of the source, in its (insertion-ordered)
dictionary iteration order. -/
def AUDITOR_NORMALIZATION : List (PyStr × PyStr) :=
  [ (pystr "pricewaterhousecoopers", pystr "PwC")
  , (pystr "pwc", pystr "PwC")
  , (pystr "ernst & young", pystr "EY")
  , (pystr "ernst and young", pystr "EY")
  , (pystr "ey", pystr "EY")
  , (pystr "kpmg", pystr "KPMG")
  , (pystr "deloitte", pystr "Deloitte")
  , (pystr "bdo", pystr "BDO")
  , (pystr "grant thornton", pystr "Grant Thornton")
  , (pystr "mazars", pystr "Mazars")
  , (pystr "rsm", pystr "RSM") ]

/-- normalize_auditor_name of the source: collapse whitespace, trim punctuation,
then map the first known alias (in table order) contained in the lowercased
name to its canonical form. -/
def normalize_auditor_name (name : PyStr) : PyStr :=
  let cleaned := pyStripChars (pystr " ,.;:-") (joinSpace (pySplitWs (replaceNbsp name)))
  let low := pyLower cleaned
  match AUDITOR_NORMALIZATION.find? (fun e => containsSub e.1 low) with
  | some e => e.2
  | none => cleaned

/-- The bad_hints list of _is_plausible_audit_firm. -/
def badHints : List PyStr :=
  [ pystr "consolidated financial statements"
  , pystr "climate-related"
  , pystr "note "
  , pystr "contents"
  , pystr "directors"
  , pystr "statement" ]

/-- The legal_suffix tuple of _is_plausible_audit_firm. -/
def legalSuffixes : List PyStr :=
  [pystr " llp", pystr " ltd", pystr " limited", pystr " plc"]

/-- _is_plausible_audit_firm of the source (leading underscore dropped for Lean). -/
def is_plausible_audit_firm (name : PyStr) : Bool :=
  let low := pyStrip (pyLower name)
  if low.isEmpty then false
  else if 80 < low.length then false
  else if badHints.any (fun b => containsSub b low) then false
  else if AUDITOR_NORMALIZATION.any (fun e => containsSub e.1 low) then true
  else legalSuffixes.any (fun suf => suf.isSuffixOf low)

/-- Characters of the regex class letters-ampersand-comma-dot-dash-space-
apostrophe-parens used by the second and third auditor patterns (with the
ignore-case flag, the leading class letter matches any ASCII letter). -/
def auditorClassChar (c : Char) : Bool :=
  c.isAlpha || c == '&' || c == ',' || c == '.' || c == '-' || c == ' ' ||
    c == aposc || c == '(' || c == ')'

/-- Attempt, at the current position, the first auditor regex: the literal
independent auditor(s) apostrophe report (case-insensitively), at most 120
non-newline characters up to a newline, then capture 2 to 120 characters of
the following line. -/
def matchAt1 (s : PyStr) : Option PyStr :=
  if ciHasPre (pystr "independent auditor") s then
    let r1 := s.drop 19
    let r2 := if ciHasPre (pystr "s") r1 then r1.drop 1 else r1
    match r2 with
    | c :: r3 =>
      if (c == aposc || c == rquoc) && ciHasPre (pystr " report") r3 then
        let r4 := r3.drop 7
        let gap := r4.takeWhile (fun d => d != '\n')
        if gap.length ≤ 120 && gap.length < r4.length then
          let line := (r4.drop (gap.length + 1)).takeWhile (fun d => d != '\n')
          if 2 ≤ line.length then some (line.take 120) else none
        else none
      else none
    | [] => none
  else none

/-- Capture of the second and third auditor patterns: a letter followed by 2 to
120 characters from the auditor character class (greedy). -/
def captureNameRun (s : PyStr) : Option PyStr :=
  match s with
  | c :: t =>
    if c.isAlpha then
      let run := t.takeWhile auditorClassChar
      if 2 ≤ run.length then some (c :: run.take 120) else none
    else none
  | [] => none

/-- Attempt, at the current position, the second auditor regex: the phrase
signed for and on behalf of (or the shorter for and on behalf of), optional
whitespace, then the name capture. -/
def matchAt2 (s : PyStr) : Option PyStr :=
  if ciHasPre (pystr "signed for and on behalf of") s then
    captureNameRun ((s.drop 27).dropWhile isPySpace)
  else if ciHasPre (pystr "for and on behalf of") s then
    captureNameRun ((s.drop 20).dropWhile isPySpace)
  else none

/-- Continuation of the third auditor regex after the auditor(s) label:
whitespace, a colon or dash, whitespace, the name capture, then only
whitespace up to the end of the line. -/
def afterColonCapture (s : PyStr) : Option PyStr :=
  match s.dropWhile isPySpace with
  | c :: t =>
    if c == ':' || c == '-' then
      match t.dropWhile isPySpace with
      | d :: t2 =>
        if d.isAlpha then
          let run := t2.takeWhile auditorClassChar
          if 2 ≤ run.length then
            let rest := t2.drop (min run.length 120)
            if (rest.takeWhile (fun e => e != '\n')).all isPySpace then
              some (d :: run.take 120)
            else none
          else none
        else none
      | [] => none
    else none
  | [] => none

/-- Attempt, at a line start, the third auditor regex (multiline anchored):
optional whitespace, the label auditor or auditors, then the colon capture. -/
def matchAt3 (s : PyStr) : Option PyStr :=
  let r := s.dropWhile isPySpace
  if ciHasPre (pystr "auditor") r then
    let r1 := r.drop 7
    match (if ciHasPre (pystr "s") r1 then afterColonCapture (r1.drop 1) else none) with
    | some v => some v
    | none => afterColonCapture r1
  else none

/-- Leftmost-match scan: try the position matcher f at every suffix, first
success wins (models re.search). -/
def scanAll (f : PyStr → Option PyStr) : PyStr → Option PyStr
  | [] => f []
  | c :: t =>
    match f (c :: t) with
    | some r => some r
    | none => scanAll f t

/-- Scan only line-start positions (for the multiline-anchored third pattern);
the fuel argument is the length of the string. -/
def scanLinesAux (f : PyStr → Option PyStr) : Nat → PyStr → Option PyStr
  | 0, s => f s
  | fuel + 1, s =>
    match f s with
    | some r => some r
    | none =>
      match s.dropWhile (fun c => c != '\n') with
      | _ :: t => scanLinesAux f fuel t
      | [] => none

/-- The ordered structural auditor patterns of extract_external_auditor. -/
def auditorPatterns : List (PyStr → Option PyStr) :=
  [scanAll matchAt1, scanAll matchAt2, fun s => scanLinesAux matchAt3 s.length s]

/-- First-match-wins walk over the structural patterns: a pattern whose match
normalises to a plausible firm name returns high confidence; a match that is
implausible falls through to the next pattern. -/
def tryPatterns : List (PyStr → Option PyStr) → PyStr → Option PyStr
  | [], _ => none
  | p :: ps, s =>
    match p s with
    | some cand =>
      let c := normalize_auditor_name cand
      if is_plausible_audit_firm c then some c else tryPatterns ps s
    | none => tryPatterns ps s

/-- The keyword test of the medium-confidence alias fallback. -/
def keyword_near (near : PyStr) : Bool :=
  containsSub (pystr "auditor") near || containsSub (pystr "audit report") near ||
    containsSub (pystr "independent") near

/-- The 140-character window around an alias occurrence at index idx
(Python slice lower[max(0, idx - 140) : idx + 140]). -/
def aliasWindow (lower : PyStr) (idx : Nat) : PyStr :=
  (lower.drop (idx - 140)).take (idx + 140 - (idx - 140))

/-- The alias-table fallback loop of extract_external_auditor: for each table
entry in order, if the alias occurs and an auditor keyword occurs within the
window around its first occurrence, return the canonical name. -/
def aliasScan (lower : PyStr) : List (PyStr × PyStr) → Option PyStr
  | [] => none
  | e :: rest =>
    match findOcc e.1 lower with
    | some idx =>
      if keyword_near (aliasWindow lower idx) then some e.2 else aliasScan lower rest
    | none => aliasScan lower rest

/-- extract_external_auditor of the source. -/
def extract_external_auditor (text : PyStr) : PyStr × PyStr :=
  let compact := replaceNbsp text
  let lower := pyLower compact
  match tryPatterns auditorPatterns compact with
  | some c => (c, pystr "high")
  | none =>
    match aliasScan lower AUDITOR_NORMALIZATION with
    | some n => (n, pystr "medium")
    | none => ([], pystr "low")

/-! ## Currency and unit detection -/

/-- Word characters of the regex word-boundary test (ASCII model). -/
def isWordChar (c : Char) : Bool := c.isAlphanum || c == '_'

/-- Whether the word w occurs in s at the current position with word
boundaries on both sides, given the previous character (none at string
start). -/
def wordAtHere (w : PyStr) (prev : Option Char) (s : PyStr) : Bool :=
  w.isPrefixOf s &&
    (match prev with | none => true | some p => !isWordChar p) &&
    (match s.drop w.length with | [] => true | d :: _ => !isWordChar d)

/-- Whether w occurs somewhere in s surrounded by word boundaries; models
re.search of a backslash-b delimited literal. -/
def containsWordAux (w : PyStr) : Option Char → PyStr → Bool
  | _, [] => false
  | prev, c :: t => wordAtHere w prev (c :: t) || containsWordAux w (some c) t

/-- See containsWordAux. -/
def containsWord (w s : PyStr) : Bool := containsWordAux w none s

/-- One position of the thousand-unit alternative pound-sign, whitespace,
optional apostrophe, whitespace, 000. -/
def poundThousandAt (s : PyStr) : Bool :=
  match s with
  | c :: t =>
    if c == '£' then
      let r1 := t.dropWhile isPySpace
      let r2 := match r1 with
        | d :: t2 => if d == aposc || d == rquoc then t2 else r1
        | [] => r1
      (pystr "000").isPrefixOf (r2.dropWhile isPySpace)
    else false
  | [] => false

/-- Whether the position test f succeeds at some suffix of the string. -/
def anyPos (f : PyStr → Bool) : PyStr → Bool
  | [] => f []
  | c :: t => f (c :: t) || anyPos f t

/-- The currency half of detect_currency_and_unit: first match in priority
order GBP, USD, EUR over the lowercased text. -/
def detect_currency (low : PyStr) : PyStr :=
  if containsWord (pystr "gbp") low || low.contains '£' || containsSub (pystr "pounds sterling") low then
    pystr "GBP"
  else if containsWord (pystr "usd") low || low.contains '$' then pystr "USD"
  else if containsWord (pystr "eur") low || low.contains '€' then pystr "EUR"
  else []

/-- The unit half of detect_currency_and_unit: the ordered case-insensitive
scale-marker groups, first matching group wins. -/
def detect_unit (text : PyStr) : PyStr :=
  let low := pyLower text
  if anyPos poundThousandAt low || containsSub (pystr "000s") low ||
      containsSub (pystr "in thousands") low || containsSub (pystr "thousand") low then
    pystr "thousand"
  else if containsSub (pystr "£m") low || containsSub (pystr "us$m") low ||
      containsSub (pystr "€m") low || containsSub (pystr "in millions") low ||
      containsSub (pystr "million") low then
    pystr "million"
  else if containsSub (pystr "billion") low || containsSub (pystr "bn") low then
    pystr "billion"
  else []

/-- detect_currency_and_unit of the source. -/
def detect_currency_and_unit (text : PyStr) : PyStr × PyStr :=
  (detect_currency (pyLower text), detect_unit text)

/-! ## Audit fee extraction -/

/-- The line-boundary characters of Python str.splitlines. -/
def isLineBreak (c : Char) : Bool :=
  c == '\n' || c == '\r' || c == Char.ofNat 11 || c == Char.ofNat 12 ||
    c == Char.ofNat 28 || c == Char.ofNat 29 || c == Char.ofNat 30 ||
    c == Char.ofNat 133 || c == Char.ofNat 8232 || c == Char.ofNat 8233

/-- Helper for str.splitlines: the accumulator holds the current line
reversed; a carriage-return newline pair counts as one boundary. -/
def pySplitLinesAux : PyStr → PyStr → List PyStr
  | acc, [] => if acc.isEmpty then [] else [acc.reverse]
  | acc, '\r' :: '\n' :: t => acc.reverse :: pySplitLinesAux [] t
  | acc, c :: t =>
    if isLineBreak c then acc.reverse :: pySplitLinesAux [] t
    else pySplitLinesAux (c :: acc) t

/-- Python text.splitlines(). -/
def pySplitLines (s : PyStr) : List PyStr := pySplitLinesAux [] s

/-- The stripped non-empty lines extract_audit_fee works on. -/
def cleanLines (text : PyStr) : List PyStr :=
  ((pySplitLines text).map pyStrip).filter (fun l => !l.isEmpty)

/-- The primary-service phrases of _is_fee_row. -/
def primaryPhrases : List PyStr :=
  [ pystr "audit of the"
  , pystr "audit of group accounts"
  , pystr "audit of the company"
  , pystr "audit of financial statements"
  , pystr "audit of the annual accounts"
  , pystr "fees payable to the company"
  , pystr "fees payable to the group" ++ aposc :: pystr "s auditor"
  , pystr "statutory audit" ]

/-- The exclusion phrases of _is_fee_row. -/
def excludePhrases : List PyStr :=
  [ pystr "other services", pystr "other assurance", pystr "tax"
  , pystr "non-audit", pystr "subsidiaries", pystr "pension", pystr "total" ]

/-- _is_fee_row of the source (leading underscore dropped for Lean). -/
def is_fee_row (line : PyStr) : Bool :=
  let low := pyLower line
  primaryPhrases.any (fun p => containsSub p low) &&
    !(excludePhrases.any (fun e => containsSub e low))

/-- After the mandatory first digit of a number token: the greedy run of
digits and commas, then an optional dot followed by at least one digit.
Returns the matched body and the rest of the string. -/
def numAfterDigit (t : PyStr) : PyStr × PyStr :=
  let ds := t.takeWhile (fun c => c.isDigit || c == ',')
  let r1 := t.drop ds.length
  match r1 with
  | '.' :: e :: t2 =>
    if e.isDigit then
      let fs := t2.takeWhile Char.isDigit
      (ds ++ '.' :: e :: fs, t2.drop fs.length)
    else (ds, r1)
  | _ => (ds, r1)

/-- One attempt of the number-token pattern optional open paren, digit,
digits-and-commas, optional fraction, optional close paren, at the current
position.  Returns the raw matched token and the rest. -/
def numTokenAt : PyStr → Option (PyStr × PyStr)
  | [] => none
  | '(' :: t =>
    match t with
    | c :: t2 =>
      if c.isDigit then
        let (body, r) := numAfterDigit t2
        match r with
        | ')' :: r2 => some ('(' :: c :: body ++ [')'], r2)
        | _ => some ('(' :: c :: body, r)
      else none
    | [] => none
  | c :: t =>
    if c.isDigit then
      let (body, r) := numAfterDigit t
      match r with
      | ')' :: r2 => some (c :: body ++ [')'], r2)
      | _ => some (c :: body, r)
    else none

/-- The token post-processing of _extract_number_tokens: drop commas, turn an
open paren into a minus sign, drop close parens, strip whitespace. -/
def feeToken (raw : PyStr) : PyStr :=
  pyStrip (((raw.filter (fun c => c != ',')).map
    (fun c => if c == '(' then '-' else c)).filter (fun c => c != ')'))

/-- Non-overlapping leftmost scan of number tokens (re.finditer); fuel is the
string length, and each step consumes at least one character. -/
def numTokensAux : Nat → PyStr → List PyStr
  | 0, _ => []
  | _, [] => []
  | fuel + 1, c :: t =>
    match numTokenAt (c :: t) with
    | some (raw, rest) =>
      let tok := feeToken raw
      if tok.isEmpty then numTokensAux fuel rest else tok :: numTokensAux fuel rest
    | none => numTokensAux fuel t

/-- _extract_number_tokens of the source. -/
def extract_number_tokens (s : PyStr) : List PyStr := numTokensAux s.length s

/-- The header test of extract_audit_fee: the line mentions an auditor
together with remuneration or fees payable. -/
def isHeaderLine (ln : PyStr) : Bool :=
  let low := pyLower ln
  containsSub (pystr "auditor") low &&
    (containsSub (pystr "remuneration") low || containsSub (pystr "fees payable") low)

/-- Indices of the header lines, in order. -/
def headerIdxList (lines : List PyStr) : List Nat :=
  (lines.enum.filter (fun p => isHeaderLine p.2)).map (fun p => p.1)

/-- A fee row yields its first number token, if any; otherwise the scan
continues. -/
def feeRowNum (ln : PyStr) : Option PyStr :=
  if is_fee_row ln then (extract_number_tokens ln).head? else none

/-- One header window: first the plain lines, then adjacent-line pairs merged
with a space (to recover figures split across two lines). -/
def windowResult (w : List PyStr) : Option PyStr :=
  match w.findSome? feeRowNum with
  | some v => some v
  | none => ((w.zip w.tail).map (fun p => p.1 ++ ' ' :: p.2)).findSome? feeRowNum

/-- The header-anchored stage of extract_audit_fee: for each header index in
order, examine the 40-line window starting at it. -/
def headerStage (lines : List PyStr) : Option PyStr :=
  (headerIdxList lines).findSome? (fun idx => windowResult ((lines.drop idx).take 40))

/-- Try a literal (on lowercased text) and return the rest. -/
def lit (w s : PyStr) : Option PyStr :=
  if w.isPrefixOf s then some (s.drop w.length) else none

/-- Greedy optional literal: try the continuation after the literal first,
then without consuming it (regex backtracking of a greedy optional group). -/
def optLit (w : PyStr) (cont : PyStr → Option PyStr) (s : PyStr) : Option PyStr :=
  match lit w s with
  | some r => match cont r with | some v => some v | none => cont s
  | none => cont s

/-- Greedy one-or-more whitespace. -/
def ws1 (s : PyStr) : Option PyStr :=
  let w := s.takeWhile isPySpace
  if w.isEmpty then none else some (s.drop w.length)

/-- Lazy bounded gap of non-newline characters: try the continuation at the
shortest gap first (regex lazy quantifier). -/
def lazyGap (cont : PyStr → Option PyStr) : Nat → PyStr → Option PyStr
  | 0, s => cont s
  | n + 1, s =>
    match cont s with
    | some r => some r
    | none =>
      match s with
      | c :: t => if c != '\n' && c != '\r' then lazyGap cont n t else none
      | [] => none

/-- The captured amount group of the sentence patterns: optional currency
symbol, whitespace, optional open paren, then a number token body. -/
def numCapAt (s : PyStr) : Option PyStr :=
  let (symPart, r1) :=
    match s with
    | c :: t => if c == '£' || c == '$' || c == '€' then ([c], t) else (([] : PyStr), s)
    | [] => (([] : PyStr), s)
  let wsp := r1.takeWhile isPySpace
  let r2 := r1.drop wsp.length
  let (par, r3) :=
    match r2 with
    | '(' :: t => ([ '(' ], t)
    | _ => (([] : PyStr), r2)
  match r3 with
  | c :: t =>
    if c.isDigit then
      let (body, r4) := numAfterDigit t
      let cl : PyStr := match r4 with | ')' :: _ => [')'] | _ => []
      some (symPart ++ wsp ++ par ++ c :: body ++ cl)
    else none
  | [] => none

/-- The greedy digits-and-fraction run of the final number search inside a
sentence token. -/
def digitsFrac (t : PyStr) : PyStr :=
  let ds := t.takeWhile Char.isDigit
  let r := t.drop ds.length
  match r with
  | '.' :: e :: t2 => if e.isDigit then ds ++ '.' :: e :: t2.takeWhile Char.isDigit else ds
  | _ => ds

/-- Leftmost search of an optionally signed number inside a processed token. -/
def findSignedNum : PyStr → Option PyStr
  | [] => none
  | c :: t =>
    if c == '-' then
      match t with
      | d :: t2 => if d.isDigit then some ('-' :: d :: digitsFrac t2) else findSignedNum t
      | [] => none
    else if c.isDigit then some (c :: digitsFrac t)
    else findSignedNum t

/-- The token post-processing of the sentence stage: strip commas and parens
(open paren becomes a minus), strip whitespace, drop one leading currency
symbol with its following whitespace, then search for the first number. -/
def sentenceNum (cap : PyStr) : Option PyStr :=
  let t1 := pyStrip (((cap.filter (fun c => c != ',')).map
    (fun c => if c == '(' then '-' else c)).filter (fun c => c != ')'))
  let t2 :=
    match t1 with
    | c :: rest => if c == '£' || c == '$' || c == '€' then rest.dropWhile isPySpace else t1
    | [] => t1
  findSignedNum t2

/-- The group-apostrophe-s branch of the first sentence pattern. -/
def optGroupPart (cont : PyStr → Option PyStr) (s : PyStr) : Option PyStr :=
  let afterApos := fun (r2 : PyStr) =>
    (lit (pystr "s") r2).bind (fun r3 => (ws1 r3).bind cont)
  let withG :=
    (lit (pystr "group") s).bind (fun r =>
      match (lit [aposc] r).bind afterApos with
      | some v => some v
      | none => afterApos r)
  match withG with
  | some v => some v
  | none => cont s

/-- The optional external branch of the first sentence pattern. -/
def optExternalPart (cont : PyStr → Option PyStr) (s : PyStr) : Option PyStr :=
  match (lit (pystr "external") s).bind (fun r => (ws1 r).bind cont) with
  | some v => some v
  | none => cont s

/-- The tail of the first sentence pattern after the auditor literal: lazy
gap, audit, lazy gap, account with optional s, short lazy gap, amount. -/
def sent1Tail (s : PyStr) : Option PyStr :=
  lazyGap (fun q =>
    (lit (pystr "audit") q).bind (fun r =>
      lazyGap (fun q2 =>
        (lit (pystr "account") q2).bind (fun r2 =>
          optLit (pystr "s") (fun r3 => lazyGap numCapAt 60 r3) r2)) 120 r)) 120 s

/-- Position attempt of the first sentence pattern (fees payable to the
auditor, audit, accounts, amount). -/
def sent1At (s : PyStr) : Option PyStr :=
  (lit (pystr "fee") s).bind (fun r0 =>
    optLit (pystr "s") (fun r1 =>
      (ws1 r1).bind (fun r2 =>
        (lit (pystr "payable") r2).bind (fun r3 =>
          (ws1 r3).bind (fun r4 =>
            (lit (pystr "to") r4).bind (fun r5 =>
              (ws1 r5).bind (fun r6 =>
                (lit (pystr "the") r6).bind (fun r7 =>
                  (ws1 r7).bind (fun r8 =>
                    optGroupPart (fun r9 =>
                      optExternalPart (fun r10 =>
                        (lit (pystr "auditor") r10).bind sent1Tail) r9) r8)))))))) r0)

/-- Position attempt of the second sentence pattern (audit fee or
remuneration followed by an amount). -/
def sent2At (s : PyStr) : Option PyStr :=
  (lit (pystr "audit") s).bind (fun r0 =>
    optLit (pystr "or") (fun r1 =>
      optLit (pystr "s") (fun r2 =>
        (ws1 r2).bind (fun r3 =>
          let cont := fun (r4 : PyStr) => lazyGap numCapAt 120 r4
          match (lit (pystr "fee") r3).bind cont with
          | some v => some v
          | none =>
            match (lit (pystr "fees") r3).bind cont with
            | some v => some v
            | none => (lit (pystr "remuneration") r3).bind cont)) r1) r0)

/-- Position attempt of the third sentence pattern (statutory audit followed
by an amount). -/
def sent3At (s : PyStr) : Option PyStr :=
  (lit (pystr "statutory") s).bind (fun r1 =>
    (ws1 r1).bind (fun r2 =>
      (lit (pystr "audit") r2).bind (fun r3 => lazyGap numCapAt 100 r3)))

/-- extract_audit_fee of the source: the header-anchored table stage, the
whole-text fee-row stage, then the three sentence patterns in order. -/
def extract_audit_fee (text : PyStr) : PyStr × PyStr :=
  let lines := cleanLines text
  match headerStage lines with
  | some v => (v, pystr "table")
  | none =>
    match lines.findSome? feeRowNum with
    | some v => (v, pystr "table")
    | none =>
      let low := pyLower text
      match (scanAll sent1At low).bind sentenceNum with
      | some v => (v, pystr "text")
      | none =>
        match (scanAll sent2At low).bind sentenceNum with
        | some v => (v, pystr "text")
        | none =>
          match (scanAll sent3At low).bind sentenceNum with
          | some v => (v, pystr "text")
          | none => ([], pystr "none")

/-! ## Year resolution -/

/-- A year capture 20xx with word boundaries on both sides, given the
character immediately before the current position. -/
def yearHere (prev : Char) (s : PyStr) : Option PyStr :=
  if isWordChar prev then none
  else
    match s with
    | '2' :: '0' :: d1 :: d2 :: rest =>
      if d1.isDigit && d2.isDigit then
        match rest with
        | [] => some ['2', '0', d1, d2]
        | e :: _ => if isWordChar e then none else some ['2', '0', d1, d2]
      else none
    | _ => none

/-- Greedy bounded gap of non-newline characters before the year capture: the
longest gap that still allows a year match wins (regex greedy quantifier). -/
def greedyYearGap (prev : Char) : Nat → PyStr → Option PyStr
  | 0, s => yearHere prev s
  | _ + 1, [] => yearHere prev []
  | n + 1, c :: t =>
    match (if c != '\n' && c != '\r' then greedyYearGap c n t else none) with
    | some v => some v
    | none => yearHere prev (c :: t)

/-- Position attempt of a year-ended pattern: the keyword (on lowercased
text), then a greedy gap of at most 40 characters, then a bounded year. -/
def matchYearAt (kw : PyStr) (s : PyStr) : Option PyStr :=
  if kw.isPrefixOf s then
    greedyYearGap (kw.getLast?.getD ' ') 40 (s.drop kw.length)
  else none

/-- Leftmost search of a word-bounded 20xx year (the filing-date fallback). -/
def findYear20Aux : Option Char → PyStr → Option PyStr
  | _, [] => none
  | prev, c :: t =>
    match yearHere (prev.getD ' ') (c :: t) with
    | some v => some v
    | none => findYear20Aux (some c) t

/-- parse_year of the source: the strict for-the-year-ended pattern, then the
permissive year-ended pattern, then a 20xx year inside the filing date. -/
def parse_year (filing_date text : PyStr) : PyStr :=
  let low := pyLower text
  match scanAll (matchYearAt (pystr "for the year ended")) low with
  | some y => y
  | none =>
    match scanAll (matchYearAt (pystr "year ended")) low with
    | some y => y
    | none => (findYear20Aux none filing_date).getD []

/-! ## The optical-fallback merge (main, lines 681-702) -/

/-- The primary extraction fields the optical-fallback merge operates on. -/
@[ext]
structure PrimaryFields where
  auditor : PyStr
  confidence : PyStr
  audit_fee : PyStr
  currency : PyStr
  fee_unit : PyStr
  year : PyStr
  deriving DecidableEq

/-- The merge-if-absent rule for one field: the optically-recovered value is
adopted only when it is non-empty and the primary value is empty. -/
def keepOr (prim ocr : PyStr) : PyStr :=
  if !ocr.isEmpty && prim.isEmpty then ocr else prim

/-- The optical-fallback merge of main: if the recovered text is empty nothing
changes; otherwise the four extractors are re-run on the recovered text and
each field is merged with the merge-if-absent rule.  The confidence tag is
carried along with the auditor field. -/
def ocrMergeStep (p : PrimaryFields) (filing_date ocr_text : PyStr) : PrimaryFields :=
  if ocr_text.isEmpty then p
  else
    let oa := (extract_external_auditor ocr_text).1
    let oc := (extract_external_auditor ocr_text).2
    let ofee := (extract_audit_fee ocr_text).1
    let ocur := (detect_currency_and_unit ocr_text).1
    let ounit := (detect_currency_and_unit ocr_text).2
    let oyear := parse_year filing_date ocr_text
    { auditor := keepOr p.auditor oa
    , confidence := if !oa.isEmpty && p.auditor.isEmpty then oc else p.confidence
    , audit_fee := keepOr p.audit_fee ofee
    , currency := keepOr p.currency ocur
    , fee_unit := keepOr p.fee_unit ounit
    , year := keepOr p.year oyear }

/-! ## Aggregation (compute_continuous_tenure, fee_to_gbp_numeric,
build_shortlist) -/

/-- A history row as consumed by the aggregation stage (the fields of
ExtractedRow that build_shortlist reads). -/
structure HRow where
  company_number : String
  company : String
  year : String
  external_auditor : String
  audit_fee : String
  fee_unit : String
  currency : String
  deriving DecidableEq

/-- Stable descending insertion by year: a row moves ahead only of rows with
strictly smaller year, so rows with equal years keep their original order,
matching Python sorted(..., reverse=True). -/
def insDesc (x : HRow) : List HRow → List HRow
  | [] => [x]
  | y :: ys => if y.year < x.year then x :: y :: ys else y :: insDesc x ys

/-- The stable descending sort by year used by compute_continuous_tenure. -/
def sortByYearDesc (l : List HRow) : List HRow :=
  l.foldl (fun acc x => insDesc x acc) []

/-- Count of the consecutive leading rows whose auditor equals a. -/
def countRun (a : String) : List HRow → Nat
  | [] => 0
  | r :: t => if r.external_auditor = a then countRun a t + 1 else 0

/-- compute_continuous_tenure of the source: order rows by year descending,
take the most recent auditor, and count the consecutive run from the top.
An empty row list or an empty most-recent auditor yields tenure 0. -/
def compute_continuous_tenure (rows : List HRow) : String × Nat :=
  match sortByYearDesc rows with
  | [] => ("", 0)
  | top :: rest =>
    if top.external_auditor = "" then ("", 0)
    else (top.external_auditor, countRun top.external_auditor (top :: rest))

/-- Decimal digits to a natural number (most significant first). -/
def digitsToNatAux : Nat → PyStr → Nat
  | acc, [] => acc
  | acc, c :: t => digitsToNatAux (acc * 10 + (c.toNat - 48)) t

/-- Python float() restricted to the decimal literals this pipeline produces
(an optional sign, an integer part, and an optional fractional part); any
other string yields none, modelling the ValueError branch. -/
def pyFloatQ (s : String) : Option ℚ :=
  let l := s.data
  let (neg, l1) :=
    match l with
    | '-' :: t => (true, t)
    | '+' :: t => (false, t)
    | _ => (false, l)
  let ds := l1.takeWhile Char.isDigit
  if ds.isEmpty then none
  else
    let r := l1.drop ds.length
    let ip : ℚ := (digitsToNatAux 0 ds : ℕ)
    match r with
    | [] => some (if neg then -ip else ip)
    | '.' :: fs =>
      if !fs.isEmpty && fs.all Char.isDigit then
        let q : ℚ := ip + (digitsToNatAux 0 fs : ℕ) / (10 : ℚ) ^ fs.length
        some (if neg then -q else q)
      else none
    | _ => none

/-- The unit scale factors of fee_to_gbp_numeric. -/
def unit_multiplier (unit : String) : ℚ :=
  if unit = "thousand" then 1000
  else if unit = "million" then 1000000
  else if unit = "billion" then 1000000000
  else 1

/-- fee_to_gbp_numeric of the source: empty or non-numeric values and
non-reference currencies are indeterminate; otherwise the value is scaled by
the unit multiplier. -/
def fee_to_gbp_numeric (value unit currency : String) : Option ℚ :=
  if value = "" then none
  else
    match pyFloatQ value with
    | none => none
    | some v =>
      if currency ≠ "" ∧ currency ≠ "GBP" then none
      else some (v * unit_multiplier unit)

/-- The contribution of one row to the fee_values list of build_shortlist:
only rows whose fee normalises to a positive number contribute. -/
def fee_contribution (r : HRow) : Option ℚ :=
  match fee_to_gbp_numeric r.audit_fee r.fee_unit r.currency with
  | some g => if 0 < g then some g else none
  | none => none

/-- The latest_fee of build_shortlist: the maximum positive normalised fee
over all of the rows of the entity, none when no row contributes. -/
def latest_fee_gbp (rows : List HRow) : Option ℚ :=
  (rows.filterMap fee_contribution).max?

/-- The tenure score of build_shortlist, over the reals. -/
noncomputable def tenure_score (t : ℕ) : ℝ := min 100 ((t : ℝ) * 10)

/-- The fee score of build_shortlist: zero when no fee is present, otherwise
the capped scaled logarithm (math.log1p f equals log (1 + f)). -/
noncomputable def fee_score : Option ℚ → ℝ
  | none => 0
  | some f => min 100 (Real.log (1 + (f : ℝ)) * 5)

/-- Rounding to two decimal places, modelling round(x, 2). -/
noncomputable def pyRound2 (x : ℝ) : ℝ := ((round (100 * x) : ℤ) : ℝ) / 100

/-- The priority score of build_shortlist. -/
noncomputable def priority_score (t : ℕ) (f : Option ℚ) : ℝ :=
  pyRound2 (0.65 * tenure_score t + 0.35 * fee_score f)

/-- The status tier of build_shortlist; the Python or-zero on a missing fee
is the getD 0 default. -/
def tender_status (t : ℕ) (f : Option ℚ) : String :=
  if 8 ≤ t ∧ 1000000 ≤ f.getD 0 then "hot"
  else if 6 ≤ t then "watch"
  else "monitor"

/-- Rank of a status tier in the order monitor, watch, hot. -/
def statusRank (s : String) : ℕ :=
  if s = "hot" then 2 else if s = "watch" then 1 else 0

/-! ## Spec-side definitions (for the refinement claim C4)

These follow the wording of the specification, to be compared with the
definitions above, which follow the source. -/

/-- Modelled from the spec wording: tenure score is min(100, 10 times t). -/
noncomputable def spec_tenure_score (t : ℕ) : ℝ := min 100 (10 * (t : ℝ))

/-- Modelled from the spec wording: fee score is min(100, ln(1 + f) times 5)
when the fee is present, else 0. -/
noncomputable def spec_fee_score : Option ℚ → ℝ
  | none => 0
  | some f => min 100 (Real.log (1 + (f : ℝ)) * 5)

/-- Modelled from the spec wording: priority score is
round(0.65 tenure score + 0.35 fee score, 2). -/
noncomputable def spec_priority_score (t : ℕ) (f : Option ℚ) : ℝ :=
  pyRound2 (0.65 * spec_tenure_score t + 0.35 * spec_fee_score f)

/-- Spec-side test that a present fee reaches the hot threshold. -/
def specFeeHot : Option ℚ → Bool
  | none => false
  | some v => decide (1000000 ≤ v)

/-- Modelled from the spec wording: hot when tenure is at least 8 and the fee
reaches 1,000,000, else watch when tenure is at least 6, else monitor. -/
def spec_status (t : ℕ) (f : Option ℚ) : String :=
  if 8 ≤ t ∧ specFeeHot f = true then "hot"
  else if 6 ≤ t then "watch"
  else "monitor"

/-! ## Helper lemmas -/

theorem keepOr_of_ne_nil (prim o : PyStr) (h : prim ≠ []) :
    keepOr prim o = prim := by
  cases prim with
  | nil => exact absurd rfl h
  | cons a l => simp [keepOr]

theorem keepOr_nil (o : PyStr) : keepOr [] o = if !o.isEmpty then o else [] := by
  simp [keepOr]

theorem keepOr_ne_imp {prim o : PyStr} (h : keepOr prim o ≠ prim) :
    prim = [] ∧ keepOr prim o = o := by
  cases prim with
  | nil =>
    refine ⟨rfl, ?_⟩
    cases o with
    | nil => simp [keepOr]
    | cons b t => simp [keepOr]
  | cons a l => exact absurd (keepOr_of_ne_nil (a :: l) o (by simp)) h

theorem keepOr_idem (prim o : PyStr) : keepOr (keepOr prim o) o = keepOr prim o := by
  cases prim with
  | cons a l =>
    rw [keepOr_of_ne_nil (a :: l) o (by simp)]
    exact keepOr_of_ne_nil (a :: l) o (by simp)
  | nil =>
    cases o with
    | nil => rfl
    | cons b t => simp [keepOr]

theorem plausible_ne_nil {c : PyStr} (h : is_plausible_audit_firm c = true) : c ≠ [] := by
  intro hc
  subst hc
  exact absurd h (by decide)

theorem tryPatterns_sound {ps : List (PyStr → Option PyStr)} {s c : PyStr}
    (h : tryPatterns ps s = some c) : is_plausible_audit_firm c = true := by
  induction ps with
  | nil => simp [tryPatterns] at h
  | cons p ps ih =>
    cases hp : p s with
    | none =>
      simp only [tryPatterns, hp] at h
      exact ih h
    | some cand =>
      simp only [tryPatterns, hp] at h
      by_cases hpl : is_plausible_audit_firm (normalize_auditor_name cand) = true
      · rw [if_pos hpl] at h
        cases h
        exact hpl
      · rw [if_neg hpl] at h
        exact ih h

theorem aliasScan_mem {lower n : PyStr} {tbl : List (PyStr × PyStr)}
    (h : aliasScan lower tbl = some n) : n ∈ tbl.map Prod.snd := by
  induction tbl with
  | nil => simp [aliasScan] at h
  | cons e rest ih =>
    cases hf : findOcc e.1 lower with
    | none =>
      simp only [aliasScan, hf] at h
      exact List.mem_cons_of_mem _ (ih h)
    | some idx =>
      simp only [aliasScan, hf] at h
      by_cases hk : keyword_near (aliasWindow lower idx) = true
      · rw [if_pos hk] at h
        cases h
        exact List.mem_cons_self _ _
      · rw [if_neg hk] at h
        exact List.mem_cons_of_mem _ (ih h)

/-- The extractor-side confidence invariant: confidence is low exactly when
the auditor field is empty. -/
def auditor_conf_inv (a conf : PyStr) : Prop := conf = pystr "low" ↔ a = []

theorem extract_auditor_eq_structural {text c : PyStr}
    (h : tryPatterns auditorPatterns (replaceNbsp text) = some c) :
    extract_external_auditor text = (c, pystr "high") := by
  unfold extract_external_auditor
  simp only [h]

theorem extract_auditor_eq_alias {text n : PyStr}
    (h1 : tryPatterns auditorPatterns (replaceNbsp text) = none)
    (h2 : aliasScan (pyLower (replaceNbsp text)) AUDITOR_NORMALIZATION = some n) :
    extract_external_auditor text = (n, pystr "medium") := by
  unfold extract_external_auditor
  simp only [h1, h2]

theorem extract_auditor_eq_low {text : PyStr}
    (h1 : tryPatterns auditorPatterns (replaceNbsp text) = none)
    (h2 : aliasScan (pyLower (replaceNbsp text)) AUDITOR_NORMALIZATION = none) :
    extract_external_auditor text = ([], pystr "low") := by
  unfold extract_external_auditor
  simp only [h1, h2]

theorem extract_auditor_inv (text : PyStr) :
    auditor_conf_inv (extract_external_auditor text).1 (extract_external_auditor text).2 := by
  cases hp : tryPatterns auditorPatterns (replaceNbsp text) with
  | some c =>
    rw [extract_auditor_eq_structural hp]
    show pystr "high" = pystr "low" ↔ c = []
    exact iff_of_false (by decide) (plausible_ne_nil (tryPatterns_sound hp))
  | none =>
    cases ha : aliasScan (pyLower (replaceNbsp text)) AUDITOR_NORMALIZATION with
    | some n =>
      rw [extract_auditor_eq_alias hp ha]
      show pystr "medium" = pystr "low" ↔ n = []
      refine iff_of_false (by decide) ?_
      have hmem := aliasScan_mem ha
      have hall : ∀ x ∈ AUDITOR_NORMALIZATION.map Prod.snd, x ≠ ([] : PyStr) := by decide
      exact hall n hmem
    | none =>
      rw [extract_auditor_eq_low hp ha]
      show pystr "low" = pystr "low" ↔ ([] : PyStr) = []
      exact iff_of_true rfl rfl

/-- Field characterisation of the merge step on non-empty recovered text. -/
theorem ocrMergeStep_fields (p : PrimaryFields) (d : PyStr) {t : PyStr}
    (ht : ¬ t.isEmpty = true) :
    ocrMergeStep p d t =
      { auditor := keepOr p.auditor (extract_external_auditor t).1
      , confidence :=
          if !(extract_external_auditor t).1.isEmpty && p.auditor.isEmpty then
            (extract_external_auditor t).2
          else p.confidence
      , audit_fee := keepOr p.audit_fee (extract_audit_fee t).1
      , currency := keepOr p.currency (detect_currency_and_unit t).1
      , fee_unit := keepOr p.fee_unit (detect_currency_and_unit t).2
      , year := keepOr p.year (parse_year d t) } := by
  unfold ocrMergeStep
  rw [if_neg ht]

/-! ## Claims C1, C2, C3 -/

/-- C1: Merge non-destructiveness: in the optical-fallback merge, each of the
fields auditor, fee, currency, unit (and the confidence tag carried with the
auditor) that is non-empty in the primary record is unchanged by the merge,
and an optically-recovered value for a field is adopted only if the primary
value of that field is empty. -/
theorem claim_C1_merge_nondestructive (p : PrimaryFields) (d t : PyStr) :
    (p.auditor ≠ [] →
      (ocrMergeStep p d t).auditor = p.auditor ∧
        (ocrMergeStep p d t).confidence = p.confidence) ∧
    (p.audit_fee ≠ [] → (ocrMergeStep p d t).audit_fee = p.audit_fee) ∧
    (p.currency ≠ [] → (ocrMergeStep p d t).currency = p.currency) ∧
    (p.fee_unit ≠ [] → (ocrMergeStep p d t).fee_unit = p.fee_unit) ∧
    ((ocrMergeStep p d t).auditor ≠ p.auditor →
      p.auditor = [] ∧ (ocrMergeStep p d t).auditor = (extract_external_auditor t).1) ∧
    ((ocrMergeStep p d t).audit_fee ≠ p.audit_fee →
      p.audit_fee = [] ∧ (ocrMergeStep p d t).audit_fee = (extract_audit_fee t).1) ∧
    ((ocrMergeStep p d t).currency ≠ p.currency →
      p.currency = [] ∧ (ocrMergeStep p d t).currency = (detect_currency_and_unit t).1) ∧
    ((ocrMergeStep p d t).fee_unit ≠ p.fee_unit →
      p.fee_unit = [] ∧ (ocrMergeStep p d t).fee_unit = (detect_currency_and_unit t).2) := by
  by_cases ht : t.isEmpty
  · have hm : ocrMergeStep p d t = p := by
      unfold ocrMergeStep
      rw [if_pos ht]
    rw [hm]
    refine ⟨fun _ => ⟨rfl, rfl⟩, fun _ => rfl, fun _ => rfl, fun _ => rfl, ?_, ?_, ?_, ?_⟩ <;>
      exact fun h => absurd rfl h
  · rw [ocrMergeStep_fields p d ht]
    refine ⟨?_, ?_, ?_, ?_, ?_, ?_, ?_, ?_⟩
    · intro h
      constructor
      · exact keepOr_of_ne_nil _ _ h
      · have hpa : p.auditor.isEmpty = false := by
          cases hc : p.auditor with
          | nil => exact absurd hc h
          | cons a l => rfl
        simp [hpa]
    · exact fun h => keepOr_of_ne_nil _ _ h
    · exact fun h => keepOr_of_ne_nil _ _ h
    · exact fun h => keepOr_of_ne_nil _ _ h
    · exact fun h => keepOr_ne_imp h
    · exact fun h => keepOr_ne_imp h
    · exact fun h => keepOr_ne_imp h
    · exact fun h => keepOr_ne_imp h

/-- Closed witness for C1 at a concrete primary record and recovered text. -/
theorem claim_C1_merge_nondestructive_witness :
    (ocrMergeStep
        { auditor := pystr "KPMG", confidence := pystr "high", audit_fee := []
        , currency := [], fee_unit := [], year := [] }
        [] (pystr "deloitte audit report")).auditor = pystr "KPMG" ∧
    (ocrMergeStep
        { auditor := pystr "KPMG", confidence := pystr "high", audit_fee := []
        , currency := [], fee_unit := [], year := [] }
        [] (pystr "deloitte audit report")).confidence = pystr "high" :=
  (claim_C1_merge_nondestructive
    { auditor := pystr "KPMG", confidence := pystr "high", audit_fee := []
    , currency := [], fee_unit := [], year := [] }
    [] (pystr "deloitte audit report")).1 (by decide)

/-- C2: Merge idempotence: applying the optical-fallback merge twice with the
same recovered text yields the same record as applying it once. -/
theorem claim_C2_merge_idempotent (p : PrimaryFields) (d t : PyStr) :
    ocrMergeStep (ocrMergeStep p d t) d t = ocrMergeStep p d t := by
  by_cases ht : t.isEmpty
  · have hm : ∀ q : PrimaryFields, ocrMergeStep q d t = q := by
      intro q
      unfold ocrMergeStep
      rw [if_pos ht]
    rw [hm, hm]
  · rw [ocrMergeStep_fields p d ht, ocrMergeStep_fields _ d ht]
    refine PrimaryFields.ext ?_ ?_ ?_ ?_ ?_ ?_
    · exact keepOr_idem _ _
    · show (if !(extract_external_auditor t).1.isEmpty &&
          (keepOr p.auditor (extract_external_auditor t).1).isEmpty then _ else _) = _
      cases hoa : (extract_external_auditor t).1 with
      | nil => simp [keepOr]
      | cons a l =>
        cases hpa : p.auditor with
        | nil => simp [keepOr]
        | cons b m => simp [keepOr]
    · exact keepOr_idem _ _
    · exact keepOr_idem _ _
    · exact keepOr_idem _ _
    · exact keepOr_idem _ _

/-- C3: FilingRecord confidence invariant: the primary extractor always
produces a pair with confidence low exactly when the auditor is empty, and
the optical-fallback merge preserves this invariant. -/
theorem claim_C3_confidence_invariant :
    (∀ text : PyStr,
      auditor_conf_inv (extract_external_auditor text).1 (extract_external_auditor text).2) ∧
    (∀ (p : PrimaryFields) (d t : PyStr), auditor_conf_inv p.auditor p.confidence →
      auditor_conf_inv (ocrMergeStep p d t).auditor (ocrMergeStep p d t).confidence) := by
  refine ⟨extract_auditor_inv, ?_⟩
  intro p d t hp
  by_cases ht : t.isEmpty
  · have hm : ocrMergeStep p d t = p := by
      unfold ocrMergeStep
      rw [if_pos ht]
    rw [hm]
    exact hp
  · rw [ocrMergeStep_fields p d ht]
    have hext := extract_auditor_inv t
    cases hoa : (extract_external_auditor t).1 with
    | nil => simpa [keepOr] using hp
    | cons a l =>
      cases hpa : p.auditor with
      | nil =>
        rw [hoa] at hext
        unfold auditor_conf_inv at hext ⊢
        simpa [keepOr, hoa, hpa] using hext
      | cons b m =>
        unfold auditor_conf_inv at hp ⊢
        rw [hpa] at hp
        simpa [keepOr, hoa, hpa] using hp

/-- Closed witness for C3 at a concrete primary record and recovered text. -/
theorem claim_C3_confidence_invariant_witness :
    auditor_conf_inv
      (ocrMergeStep
        { auditor := [], confidence := pystr "low", audit_fee := []
        , currency := [], fee_unit := [], year := [] }
        [] (pystr "the auditor kpmg was appointed")).auditor
      (ocrMergeStep
        { auditor := [], confidence := pystr "low", audit_fee := []
        , currency := [], fee_unit := [], year := [] }
        [] (pystr "the auditor kpmg was appointed")).confidence :=
  claim_C3_confidence_invariant.2
    { auditor := [], confidence := pystr "low", audit_fee := []
    , currency := [], fee_unit := [], year := [] }
    [] (pystr "the auditor kpmg was appointed") (by constructor <;> intro h <;> rfl)

/-! ## Claim C4: scoring formulas and status thresholds -/

/-- C4: Priority scoring and status: the aggregation computes tenure score
min(100, 10 t), fee score min(100, ln(1 + f) times 5) for a present fee and 0
otherwise, priority score round(0.65 tenure + 0.35 fee, 2), and the
hot/watch/monitor status with thresholds 8 years with 1,000,000 and 6 years;
the source-side definitions coincide with the spec-side definitions. -/
theorem claim_C4_scoring_and_status (t : ℕ) (f : Option ℚ) :
    tenure_score t = spec_tenure_score t ∧
    fee_score f = spec_fee_score f ∧
    priority_score t f = spec_priority_score t f ∧
    tender_status t f = spec_status t f := by
  have hts : tenure_score t = spec_tenure_score t := by
    unfold tenure_score spec_tenure_score
    rw [mul_comm]
  have hfs : fee_score f = spec_fee_score f := by
    cases f <;> rfl
  refine ⟨hts, hfs, ?_, ?_⟩
  · unfold priority_score spec_priority_score
    rw [hts, hfs]
  · cases f with
    | none =>
      have h0 : ¬ ((1000000 : ℚ) ≤ 0) := by norm_num
      unfold tender_status spec_status
      simp [specFeeHot, h0]
    | some v =>
      unfold tender_status spec_status
      simp [specFeeHot]

/-! ## Claim C6: fee normalisation -/

theorem fee_currency_guard {c : String} (v u : String) (h1 : c ≠ "") (h2 : c ≠ "GBP") :
    fee_to_gbp_numeric v u c = none := by
  unfold fee_to_gbp_numeric
  by_cases hv : v = ""
  · rw [if_pos hv]
  · rw [if_neg hv]
    cases pyFloatQ v with
    | none => rfl
    | some q =>
      simp only []
      rw [if_pos ⟨h1, h2⟩]

/-- C6: Fee normalization: an empty or non-numeric value is indeterminate, a
currency different from the reference GBP is indeterminate, otherwise the
numeric value is scaled by the unit multiplier (thousand, million, billion,
or one); consequently a record with a non-reference currency never
contributes to the latest-fee computation. -/
theorem claim_C6_fee_normalization :
    (∀ u c : String, fee_to_gbp_numeric "" u c = none) ∧
    (∀ v u c : String, pyFloatQ v = none → fee_to_gbp_numeric v u c = none) ∧
    (∀ v u c : String, c ≠ "" → c ≠ "GBP" → fee_to_gbp_numeric v u c = none) ∧
    (∀ (v u c : String) (q : ℚ), pyFloatQ v = some q → (c = "" ∨ c = "GBP") →
      fee_to_gbp_numeric v u c = some (q * unit_multiplier u)) ∧
    (unit_multiplier "thousand" = 1000 ∧ unit_multiplier "million" = 1000000 ∧
      unit_multiplier "billion" = 1000000000 ∧ unit_multiplier "" = 1) ∧
    (∀ (l1 l2 : List HRow) (r : HRow), r.currency ≠ "" → r.currency ≠ "GBP" →
      latest_fee_gbp (l1 ++ r :: l2) = latest_fee_gbp (l1 ++ l2)) := by
  refine ⟨?_, ?_, ?_, ?_, ?_, ?_⟩
  · intro u c
    unfold fee_to_gbp_numeric
    rw [if_pos rfl]
  · intro v u c h
    unfold fee_to_gbp_numeric
    by_cases hv : v = ""
    · rw [if_pos hv]
    · rw [if_neg hv, h]
  · exact fun v u c h1 h2 => fee_currency_guard v u h1 h2
  · intro v u c q hq hc
    have hv : v ≠ "" := by
      intro he
      rw [he] at hq
      exact Option.noConfusion ((by decide : pyFloatQ "" = none) ▸ hq)
    unfold fee_to_gbp_numeric
    rw [if_neg hv, hq]
    simp only []
    have hng : ¬ (c ≠ "" ∧ c ≠ "GBP") := by
      rcases hc with h | h
      · exact fun hcc => hcc.1 h
      · exact fun hcc => hcc.2 h
    rw [if_neg hng]
  · exact ⟨rfl, rfl, rfl, rfl⟩
  · intro l1 l2 r h1 h2
    have hr : fee_contribution r = none := by
      unfold fee_contribution
      rw [fee_currency_guard _ _ h1 h2]
    unfold latest_fee_gbp
    rw [List.filterMap_append, List.filterMap_append, List.filterMap_cons_none hr]

/-- Closed witness for C6 at concrete values and rows. -/
theorem claim_C6_fee_normalization_witness :
    fee_to_gbp_numeric "5" "" "USD" = none ∧
    fee_to_gbp_numeric "125" "thousand" "GBP" = some (125 * unit_multiplier "thousand") ∧
    latest_fee_gbp
        [ { company_number := "1", company := "A", year := "2021", external_auditor := "PwC"
          , audit_fee := "9", fee_unit := "", currency := "EUR" } ] =
      latest_fee_gbp ([] : List HRow) :=
  ⟨claim_C6_fee_normalization.2.2.1 "5" "" "USD" (by decide) (by decide),
   claim_C6_fee_normalization.2.2.2.1 "125" "thousand" "GBP" 125 (by decide) (Or.inr rfl),
   claim_C6_fee_normalization.2.2.2.2.2 []
     [] _ (by decide) (by decide)⟩

/-! ## Claim C7: status monotonicity -/

theorem rank_tender_status (t : ℕ) (f : Option ℚ) :
    statusRank (tender_status t f) =
      if 8 ≤ t ∧ 1000000 ≤ f.getD 0 then 2 else if 6 ≤ t then 1 else 0 := by
  unfold tender_status statusRank
  by_cases h1 : 8 ≤ t ∧ 1000000 ≤ f.getD 0
  · rw [if_pos h1, if_pos h1]
    decide
  · rw [if_neg h1, if_neg h1]
    by_cases h2 : 6 ≤ t
    · rw [if_pos h2, if_pos h2]
      decide
    · rw [if_neg h2, if_neg h2]
      decide

/-- C7: Status monotonicity: with the order monitor below watch below hot,
the status is non-decreasing in tenure for a fixed fee and non-decreasing in
fee for a fixed tenure (an absent fee compares as zero). -/
theorem claim_C7_status_monotone :
    (∀ (t1 t2 : ℕ) (f : Option ℚ), t1 ≤ t2 →
      statusRank (tender_status t1 f) ≤ statusRank (tender_status t2 f)) ∧
    (∀ (t : ℕ) (f g : Option ℚ), f.getD 0 ≤ g.getD 0 →
      statusRank (tender_status t f) ≤ statusRank (tender_status t g)) := by
  constructor
  · intro t1 t2 f h
    rw [rank_tender_status, rank_tender_status]
    by_cases hf : (1000000 : ℚ) ≤ f.getD 0
    · simp only [hf, and_true]
      split_ifs <;> omega
    · have hn1 : ¬ (8 ≤ t1 ∧ 1000000 ≤ f.getD 0) := fun hc => hf hc.2
      have hn2 : ¬ (8 ≤ t2 ∧ 1000000 ≤ f.getD 0) := fun hc => hf hc.2
      rw [if_neg hn1, if_neg hn2]
      split_ifs <;> omega
  · intro t f g h
    rw [rank_tender_status, rank_tender_status]
    by_cases hf : (1000000 : ℚ) ≤ f.getD 0
    · have hg : (1000000 : ℚ) ≤ g.getD 0 := le_trans hf h
      simp only [hf, hg, and_true]
      split_ifs <;> omega
    · have hn1 : ¬ (8 ≤ t ∧ 1000000 ≤ f.getD 0) := fun hc => hf hc.2
      rw [if_neg hn1]
      by_cases hg : (1000000 : ℚ) ≤ g.getD 0
      · simp only [hg, and_true]
        split_ifs <;> omega
      · have hn2 : ¬ (8 ≤ t ∧ 1000000 ≤ g.getD 0) := fun hc => hg hc.2
        rw [if_neg hn2]

/-- Closed witness for C7 at concrete tenures and fees. -/
theorem claim_C7_status_monotone_witness :
    statusRank (tender_status 5 (some 2000000)) ≤ statusRank (tender_status 9 (some 2000000)) ∧
    statusRank (tender_status 9 (some 500)) ≤ statusRank (tender_status 9 (some 2000000)) ∧
    statusRank (tender_status 9 none) ≤ statusRank (tender_status 9 (some 2000000)) :=
  ⟨claim_C7_status_monotone.1 5 9 (some 2000000) (by decide),
   claim_C7_status_monotone.2 9 (some 500) (some 2000000) (by norm_num),
   claim_C7_status_monotone.2 9 none (some 2000000) (by norm_num)⟩

/-! ## Claim C5: tenure monotonicity under insertion -/

theorem mem_insDesc {a x : HRow} {l : List HRow} : a ∈ insDesc x l ↔ a = x ∨ a ∈ l := by
  induction l with
  | nil => simp [insDesc]
  | cons y ys ih =>
    unfold insDesc
    by_cases h : y.year < x.year
    · rw [if_pos h]
      simp
    · rw [if_neg h]
      simp [ih]
      tauto

theorem mem_foldl_insDesc {a : HRow} {l : List HRow} :
    ∀ acc : List HRow,
      (a ∈ l.foldl (fun acc x => insDesc x acc) acc ↔ a ∈ acc ∨ a ∈ l) := by
  induction l with
  | nil => simp
  | cons x xs ih =>
    intro acc
    rw [List.foldl_cons, ih, mem_insDesc]
    simp
    tauto

theorem mem_sortByYearDesc {a : HRow} {l : List HRow} : a ∈ sortByYearDesc l ↔ a ∈ l := by
  unfold sortByYearDesc
  rw [mem_foldl_insDesc]
  simp

theorem length_insDesc (x : HRow) (l : List HRow) :
    (insDesc x l).length = l.length + 1 := by
  induction l with
  | nil => rfl
  | cons y ys ih =>
    unfold insDesc
    by_cases h : y.year < x.year
    · rw [if_pos h]
      simp
    · rw [if_neg h]
      simp [ih]

theorem length_sortByYearDesc (l : List HRow) :
    (sortByYearDesc l).length = l.length := by
  unfold sortByYearDesc
  suffices h : ∀ acc : List HRow,
      (l.foldl (fun acc x => insDesc x acc) acc).length = acc.length + l.length by
    simpa using h []
  induction l with
  | nil => simp
  | cons x xs ih =>
    intro acc
    rw [List.foldl_cons, ih, length_insDesc, List.length_cons]
    omega

theorem insDesc_append_last {x r : HRow} (h : r.year < x.year) (S : List HRow) :
    insDesc x (S ++ [r]) = insDesc x S ++ [r] := by
  induction S with
  | nil => simp [insDesc, h]
  | cons y ys ih =>
    rw [List.cons_append]
    simp only [insDesc]
    by_cases hy : y.year < x.year
    · rw [if_pos hy, if_pos hy]
      simp
    · rw [if_neg hy, if_neg hy]
      simp [ih]

theorem insDesc_small_eq_append {r : HRow} {S : List HRow}
    (h : ∀ y ∈ S, ¬ y.year < r.year) : insDesc r S = S ++ [r] := by
  induction S with
  | nil => rfl
  | cons y ys ih =>
    have hy := h y (by simp)
    unfold insDesc
    rw [if_neg hy]
    simp only [List.cons_append, List.cons.injEq, true_and]
    exact ih (fun z hz => h z (by simp [hz]))

theorem foldl_insDesc_append_last {l2 : List HRow} {r : HRow}
    (h : ∀ x ∈ l2, r.year < x.year) :
    ∀ S : List HRow,
      l2.foldl (fun acc x => insDesc x acc) (S ++ [r]) =
        l2.foldl (fun acc x => insDesc x acc) S ++ [r] := by
  induction l2 with
  | nil => intro S; rfl
  | cons x xs ih =>
    intro S
    rw [List.foldl_cons, List.foldl_cons, insDesc_append_last (h x (by simp))]
    exact ih (fun z hz => h z (by simp [hz])) _

theorem sort_insert_oldest {l1 l2 : List HRow} {r : HRow}
    (h : ∀ s ∈ l1 ++ l2, r.year < s.year) :
    sortByYearDesc (l1 ++ [r] ++ l2) = sortByYearDesc (l1 ++ l2) ++ [r] := by
  unfold sortByYearDesc
  rw [List.foldl_append, List.foldl_append, List.foldl_append (l := l1)]
  rw [show List.foldl (fun acc x => insDesc x acc)
      (List.foldl (fun acc x => insDesc x acc) [] l1) [r] =
      insDesc r (List.foldl (fun acc x => insDesc x acc) [] l1) from rfl]
  have hS : ∀ y ∈ List.foldl (fun acc x => insDesc x acc) ([] : List HRow) l1,
      ¬ y.year < r.year := by
    intro y hy
    have hy1 : y ∈ l1 := by
      have := (mem_foldl_insDesc (a := y) (l := l1) []).mp hy
      simpa using this
    exact asymm (h y (List.mem_append_left _ hy1))
  rw [insDesc_small_eq_append hS]
  exact foldl_insDesc_append_last (fun x hx => h x (List.mem_append_right _ hx)) _

theorem insDesc_big_eq_cons {r : HRow} {S : List HRow}
    (h : ∀ y ∈ S, y.year < r.year) : insDesc r S = r :: S := by
  cases S with
  | nil => rfl
  | cons y ys =>
    unfold insDesc
    rw [if_pos (h y (by simp))]

theorem foldl_insDesc_cons_big {l2 : List HRow} {r : HRow}
    (h : ∀ x ∈ l2, x.year < r.year) :
    ∀ S : List HRow,
      l2.foldl (fun acc x => insDesc x acc) (r :: S) =
        r :: l2.foldl (fun acc x => insDesc x acc) S := by
  induction l2 with
  | nil => intro S; rfl
  | cons x xs ih =>
    intro S
    have hx : ¬ r.year < x.year := asymm (h x (by simp))
    have hins : insDesc x (r :: S) = r :: insDesc x S := by
      rw [show insDesc x (r :: S) =
        if r.year < x.year then x :: r :: S else r :: insDesc x S from rfl, if_neg hx]
    rw [List.foldl_cons, List.foldl_cons, hins]
    exact ih (fun z hz => h z (by simp [hz])) _

theorem sort_insert_newest {l1 l2 : List HRow} {r : HRow}
    (h : ∀ s ∈ l1 ++ l2, s.year < r.year) :
    sortByYearDesc (l1 ++ [r] ++ l2) = r :: sortByYearDesc (l1 ++ l2) := by
  unfold sortByYearDesc
  rw [List.foldl_append, List.foldl_append, List.foldl_append (l := l1)]
  rw [show List.foldl (fun acc x => insDesc x acc)
      (List.foldl (fun acc x => insDesc x acc) [] l1) [r] =
      insDesc r (List.foldl (fun acc x => insDesc x acc) [] l1) from rfl]
  have hS : ∀ y ∈ List.foldl (fun acc x => insDesc x acc) ([] : List HRow) l1,
      y.year < r.year := by
    intro y hy
    have hy1 : y ∈ l1 := by
      have := (mem_foldl_insDesc (a := y) (l := l1) []).mp hy
      simpa using this
    exact h y (List.mem_append_left _ hy1)
  rw [insDesc_big_eq_cons hS]
  exact foldl_insDesc_cons_big (fun x hx => h x (List.mem_append_right _ hx)) _

theorem countRun_le_append (a : String) (l : List HRow) (x : HRow) :
    countRun a l ≤ countRun a (l ++ [x]) := by
  induction l with
  | nil => simp [countRun]
  | cons y ys ih =>
    rw [List.cons_append]
    simp only [countRun]
    by_cases h : y.external_auditor = a
    · rw [if_pos h, if_pos h]
      omega
    · rw [if_neg h, if_neg h]

theorem compute_eq_of_sort {rows : List HRow} {top : HRow} {rest : List HRow}
    (h : sortByYearDesc rows = top :: rest) :
    compute_continuous_tenure rows =
      if top.external_auditor = "" then ("", 0)
      else (top.external_auditor, countRun top.external_auditor (top :: rest)) := by
  unfold compute_continuous_tenure
  rw [h]

/-- C5: Tenure monotonicity under insertion: for a non-empty record list,
inserting a record older than all existing records with the current auditor
never decreases the computed tenure, and inserting a record newer than all
existing records with a different auditor yields a tenure of at most 1. -/
theorem claim_C5_tenure_monotone :
    (∀ (l1 l2 : List HRow) (r : HRow), l1 ++ l2 ≠ [] →
      (∀ s ∈ l1 ++ l2, r.year < s.year) →
      r.external_auditor = (compute_continuous_tenure (l1 ++ l2)).1 →
      (compute_continuous_tenure (l1 ++ l2)).2 ≤
        (compute_continuous_tenure (l1 ++ [r] ++ l2)).2) ∧
    (∀ (l1 l2 : List HRow) (r : HRow), l1 ++ l2 ≠ [] →
      (∀ s ∈ l1 ++ l2, s.year < r.year) →
      r.external_auditor ≠ (compute_continuous_tenure (l1 ++ l2)).1 →
      (compute_continuous_tenure (l1 ++ [r] ++ l2)).2 ≤ 1) := by
  constructor
  · intro l1 l2 r hne hold _haud
    have hs := sort_insert_oldest hold
    cases hL : sortByYearDesc (l1 ++ l2) with
    | nil =>
      exfalso
      have := length_sortByYearDesc (l1 ++ l2)
      rw [hL] at this
      exact hne (List.eq_nil_of_length_eq_zero this.symm)
    | cons top rest =>
      rw [hL] at hs
      rw [show (top :: rest) ++ [r] = top :: (rest ++ [r]) from rfl] at hs
      rw [compute_eq_of_sort hL, compute_eq_of_sort hs]
      by_cases ht : top.external_auditor = ""
      · rw [if_pos ht, if_pos ht]
      · rw [if_neg ht, if_neg ht]
        show countRun _ (top :: rest) ≤ countRun _ (top :: (rest ++ [r]))
        rw [show top :: (rest ++ [r]) = (top :: rest) ++ [r] from rfl]
        exact countRun_le_append _ _ _
  · intro l1 l2 r hne hnew haud
    have hs := sort_insert_newest hnew
    cases hL : sortByYearDesc (l1 ++ l2) with
    | nil =>
      exfalso
      have := length_sortByYearDesc (l1 ++ l2)
      rw [hL] at this
      exact hne (List.eq_nil_of_length_eq_zero this.symm)
    | cons top rest =>
      have htop : (compute_continuous_tenure (l1 ++ l2)).1 = top.external_auditor := by
        rw [compute_eq_of_sort hL]
        by_cases ht : top.external_auditor = ""
        · rw [if_pos ht, ht]
        · rw [if_neg ht]
      rw [hL] at hs
      rw [compute_eq_of_sort hs]
      by_cases hr : r.external_auditor = ""
      · rw [if_pos hr]
        exact Nat.zero_le 1
      · rw [if_neg hr]
        show countRun r.external_auditor (r :: top :: rest) ≤ 1
        have htne : top.external_auditor ≠ r.external_auditor := by
          intro he
          exact haud (by rw [htop, he])
        rw [show countRun r.external_auditor (r :: top :: rest) =
          countRun r.external_auditor (top :: rest) + 1 from by simp [countRun]]
        rw [show countRun r.external_auditor (top :: rest) = 0 from by
          simp [countRun, htne]]

/-- Closed witness for C5 at concrete record lists. -/
theorem claim_C5_tenure_monotone_witness :
    (compute_continuous_tenure
        [ { company_number := "1", company := "A", year := "2021"
          , external_auditor := "PwC", audit_fee := "", fee_unit := "", currency := "" } ]).2 ≤
      (compute_continuous_tenure
        [ { company_number := "1", company := "A", year := "2021"
          , external_auditor := "PwC", audit_fee := "", fee_unit := "", currency := "" }
        , { company_number := "1", company := "A", year := "2020"
          , external_auditor := "PwC", audit_fee := "", fee_unit := "", currency := "" } ]).2 ∧
    (compute_continuous_tenure
        [ { company_number := "1", company := "A", year := "2022"
          , external_auditor := "KPMG", audit_fee := "", fee_unit := "", currency := "" }
        , { company_number := "1", company := "A", year := "2021"
          , external_auditor := "PwC", audit_fee := "", fee_unit := "", currency := "" } ]).2 ≤ 1 :=
  ⟨claim_C5_tenure_monotone.1
      [ { company_number := "1", company := "A", year := "2021"
        , external_auditor := "PwC", audit_fee := "", fee_unit := "", currency := "" } ] []
      { company_number := "1", company := "A", year := "2020"
      , external_auditor := "PwC", audit_fee := "", fee_unit := "", currency := "" }
      (by decide)
      (by
        intro s hs
        simp only [List.append_nil, List.mem_singleton] at hs
        subst hs
        exact String.lt_iff_toList_lt.mpr (by decide))
      (by decide),
   claim_C5_tenure_monotone.2 []
      [ { company_number := "1", company := "A", year := "2021"
        , external_auditor := "PwC", audit_fee := "", fee_unit := "", currency := "" } ]
      { company_number := "1", company := "A", year := "2022"
      , external_auditor := "KPMG", audit_fee := "", fee_unit := "", currency := "" }
      (by decide)
      (by
        intro s hs
        simp only [List.nil_append, List.mem_singleton] at hs
        subst hs
        exact String.lt_iff_toList_lt.mpr (by decide))
      (by decide)⟩

/-! ## Claim C8: the fee-extractor header-window case -/

theorem findSome?_eq_find?_bind {α β : Type} (f : α → Option β) (l : List α) :
    l.findSome? f = (l.find? (fun x => (f x).isSome)).bind f := by
  induction l with
  | nil => rfl
  | cons a l ih =>
    rw [List.findSome?_cons]
    cases hf : f a with
    | some b =>
      rw [List.find?_cons_of_pos _ (by simp [hf])]
      simp [hf]
    | none =>
      rw [List.find?_cons_of_neg _ (by simp [hf])]
      exact ih

/-- The claimed fee-table line of the specification. -/
def c8feeLine : PyStr := pystr "Audit of the financial statements 125,000"

/-- C8 (amended): if the first header line of the text has, as the first
fee-row line with a numeric token inside its 40-line window, exactly the line
Audit of the financial statements 125,000, then the Fee Extractor returns
125000 with method tag table.  (The original claim, quantified over every
text containing such a header and line, fails when an earlier fee row in the
window wins; see the counterexample.) -/
theorem claim_C8_fee_header_window (text : PyStr) (i0 : ℕ) (idxrest : List ℕ)
    (hidx : headerIdxList (cleanLines text) = i0 :: idxrest)
    (hrow : (((cleanLines text).drop i0).take 40).find? (fun ln => (feeRowNum ln).isSome) =
      some c8feeLine) :
    extract_audit_fee text = (pystr "125000", pystr "table") := by
  have hnum : feeRowNum c8feeLine = some (pystr "125000") := by decide
  have hws : windowResult (((cleanLines text).drop i0).take 40) = some (pystr "125000") := by
    unfold windowResult
    rw [findSome?_eq_find?_bind, hrow, Option.some_bind, hnum]
  have hhs : headerStage (cleanLines text) = some (pystr "125000") := by
    unfold headerStage
    rw [hidx, List.findSome?_cons, hws]
  unfold extract_audit_fee
  simp only [hhs]

/-- Closed witness for the amended C8 at a concrete two-line text. -/
theorem claim_C8_fee_header_window_witness :
    extract_audit_fee
        (pystr "Auditors" ++ aposc :: pystr " remuneration" ++ '\n' :: c8feeLine) =
      (pystr "125000", pystr "table") :=
  claim_C8_fee_header_window
    (pystr "Auditors" ++ aposc :: pystr " remuneration" ++ '\n' :: c8feeLine) 0 []
    (by decide) (by decide)

/-- Counterexample to C8 as stated: this text contains the header line and,
within the window, the claimed line with no exclusion phrase, yet the Fee
Extractor returns the value of the earlier fee row statutory audit 9. -/
theorem claim_C8_counterexample :
    isHeaderLine (pystr "Auditors" ++ aposc :: pystr " remuneration") = true ∧
    cleanLines
        (pystr "Auditors" ++ aposc :: pystr " remuneration" ++
          '\n' :: pystr "statutory audit 9" ++ '\n' :: c8feeLine) =
      [pystr "Auditors" ++ aposc :: pystr " remuneration", pystr "statutory audit 9", c8feeLine] ∧
    is_fee_row c8feeLine = true ∧
    excludePhrases.all (fun e => !containsSub e (pyLower c8feeLine)) = true ∧
    extract_audit_fee
        (pystr "Auditors" ++ aposc :: pystr " remuneration" ++
          '\n' :: pystr "statutory audit 9" ++ '\n' :: c8feeLine) =
      (pystr "9", pystr "table") ∧
    extract_audit_fee
        (pystr "Auditors" ++ aposc :: pystr " remuneration" ++
          '\n' :: pystr "statutory audit 9" ++ '\n' :: c8feeLine) ≠
      (pystr "125000", pystr "table") := by
  refine ⟨by decide, by decide, by decide, by decide, ?_, ?_⟩ <;> decide

/-! ## Claim C9: the year-resolver fallback chain -/

theorem scanAll_none_all {f : PyStr → Option PyStr} {s : PyStr} (h : scanAll f s = none) :
    ∀ n, f (s.drop n) = none := by
  induction s with
  | nil =>
    intro n
    rw [List.drop_nil]
    simpa [scanAll] using h
  | cons c t ih =>
    have h1 : f (c :: t) = none ∧ scanAll f t = none := by
      unfold scanAll at h
      cases hf : f (c :: t) with
      | some r => rw [hf] at h; exact absurd h (by simp)
      | none => rw [hf] at h; exact ⟨rfl, h⟩
    intro n
    cases n with
    | zero => exact h1.1
    | succ m =>
      rw [List.drop_succ_cons]
      exact ih h1.2 m

theorem scanAll_some_exists {f : PyStr → Option PyStr} {s y : PyStr}
    (h : scanAll f s = some y) : ∃ n, f (s.drop n) = some y := by
  induction s with
  | nil => exact ⟨0, by simpa [scanAll] using h⟩
  | cons c t ih =>
    unfold scanAll at h
    cases hf : f (c :: t) with
    | some r =>
      rw [hf] at h
      refine ⟨0, ?_⟩
      rw [List.drop_zero, hf]
      exact h
    | none =>
      rw [hf] at h
      obtain ⟨n, hn⟩ := ih h
      exact ⟨n + 1, by rw [List.drop_succ_cons]; exact hn⟩

theorem matchYear_permissive {s y : PyStr}
    (h : matchYearAt (pystr "for the year ended") s = some y) :
    matchYearAt (pystr "year ended") (s.drop 8) = some y := by
  unfold matchYearAt at h ⊢
  by_cases hp : (pystr "for the year ended").isPrefixOf s = true
  · rw [if_pos hp] at h
    have h1 : pystr "for the year ended" <+: s := List.isPrefixOf_iff_prefix.mp hp
    obtain ⟨u, hu⟩ := h1
    have hp2 : (pystr "year ended").isPrefixOf (s.drop 8) = true := by
      apply List.isPrefixOf_iff_prefix.mpr
      refine ⟨u, ?_⟩
      rw [← hu]
      rfl
    rw [if_pos hp2]
    have hdrop : (s.drop 8).drop ((pystr "year ended").length) =
        s.drop ((pystr "for the year ended").length) := by
      rw [List.drop_drop]
      congr 1
    rw [show ((pystr "year ended").getLast?.getD ' ') = 'd' from rfl]
    rw [hdrop]
    rw [show ((pystr "for the year ended").getLast?.getD ' ') = 'd' from rfl] at h
    exact h
  · rw [if_neg hp] at h
    exact absurd h (by simp)

theorem isDigit_toNat_bounds {c : Char} (h : c.isDigit = true) :
    48 ≤ c.toNat ∧ c.toNat ≤ 57 := by
  simp only [Char.isDigit, Bool.and_eq_true, decide_eq_true_eq] at h
  exact h

/-- The well-formedness and range facts of a captured year. -/
def yearShape (y : PyStr) : Prop :=
  (∃ d1 d2 : Char, y = ['2', '0', d1, d2] ∧ d1.isDigit = true ∧ d2.isDigit = true) ∧
    2000 ≤ digitsToNatAux 0 y ∧ digitsToNatAux 0 y ≤ 2099

theorem yearHere_shape {prev : Char} {s y : PyStr} (h : yearHere prev s = some y) :
    yearShape y := by
  unfold yearHere at h
  by_cases hw : isWordChar prev = true
  · rw [if_pos hw] at h
    exact absurd h (by simp)
  · rw [if_neg hw] at h
    split at h
    · rename_i d1 d2 rest
      by_cases hd : (d1.isDigit && d2.isDigit) = true
      · rw [if_pos hd] at h
        obtain ⟨hd1, hd2⟩ := Bool.and_eq_true_iff.mp hd
        have hy : y = ['2', '0', d1, d2] := by
          split at h
          · exact (Option.some.inj h).symm
          · rename_i e rest2
            by_cases he : isWordChar e = true
            · rw [if_pos he] at h
              exact absurd h (by simp)
            · rw [if_neg he] at h
              exact (Option.some.inj h).symm
        subst hy
        have hstep : ∀ (a : ℕ) (c : Char) (u : PyStr),
            digitsToNatAux a (c :: u) = digitsToNatAux (a * 10 + (c.toNat - 48)) u :=
          fun _ _ _ => rfl
        have hval : digitsToNatAux 0 ['2', '0', d1, d2] =
            (((0 * 10 + (50 - 48)) * 10 + (48 - 48)) * 10 + (d1.toNat - 48)) * 10 +
              (d2.toNat - 48) := by
          rw [hstep, hstep, hstep, hstep,
            show ('2').toNat = 50 from rfl, show ('0').toNat = 48 from rfl]
          rfl
        refine ⟨⟨d1, d2, rfl, hd1, hd2⟩, ?_, ?_⟩ <;>
          · have hb1 := isDigit_toNat_bounds hd1
            have hb2 := isDigit_toNat_bounds hd2
            rw [hval]
            omega
      · rw [if_neg hd] at h
        exact absurd h (by simp)
    · exact absurd h (by simp)

theorem greedyYearGap_shape {prev : Char} {n : ℕ} {s y : PyStr}
    (h : greedyYearGap prev n s = some y) : yearShape y := by
  induction n generalizing prev s y with
  | zero => exact yearHere_shape h
  | succ m ih =>
    cases s with
    | nil => exact yearHere_shape h
    | cons c t =>
      rw [show greedyYearGap prev (m + 1) (c :: t) =
        match (if (c != '\n' && c != '\r') = true then greedyYearGap c m t else none) with
        | some v => some v
        | none => yearHere prev (c :: t) from rfl] at h
      by_cases hc : (c != '\n' && c != '\r') = true
      · rw [if_pos hc] at h
        cases hg : greedyYearGap c m t with
        | some v =>
          rw [hg] at h
          have hv : v = y := Option.some.inj h
          exact hv ▸ ih hg
        | none =>
          rw [hg] at h
          exact yearHere_shape h
      · rw [if_neg hc] at h
        exact yearHere_shape h

theorem matchYearAt_shape {kw s y : PyStr} (h : matchYearAt kw s = some y) : yearShape y := by
  unfold matchYearAt at h
  by_cases hp : kw.isPrefixOf s = true
  · rw [if_pos hp] at h
    exact greedyYearGap_shape h
  · rw [if_neg hp] at h
    exact absurd h (by simp)

theorem findYear20Aux_shape {prev : Option Char} {d y : PyStr}
    (h : findYear20Aux prev d = some y) : yearShape y := by
  induction d generalizing prev with
  | nil => exact absurd h (by simp [findYear20Aux])
  | cons c t ih =>
    unfold findYear20Aux at h
    cases hy : yearHere (prev.getD ' ') (c :: t) with
    | some v =>
      rw [hy] at h
      cases h
      exact yearHere_shape hy
    | none =>
      rw [hy] at h
      exact ih h

/-- C9 (amended): the year resolver first tries the strict
for-the-year-ended pattern, then the strictly more permissive year-ended
pattern, then falls back to a year in 2000 to 2099 found inside the filing
date, returning empty when all three fail; every year produced by any stage
is of the form 20xx and lies in 2000 to 2099.  (The original claim said the
fallback accepts any 4-digit year; the code only accepts years 2000-2099,
see the counterexample.) -/
theorem claim_C9_year_chain :
    (∀ d t y : PyStr,
      scanAll (matchYearAt (pystr "for the year ended")) (pyLower t) = some y →
      parse_year d t = y) ∧
    (∀ d t y : PyStr,
      scanAll (matchYearAt (pystr "for the year ended")) (pyLower t) = none →
      scanAll (matchYearAt (pystr "year ended")) (pyLower t) = some y →
      parse_year d t = y) ∧
    (∀ d t : PyStr,
      scanAll (matchYearAt (pystr "for the year ended")) (pyLower t) = none →
      scanAll (matchYearAt (pystr "year ended")) (pyLower t) = none →
      parse_year d t = (findYear20Aux none d).getD []) ∧
    (∀ t y : PyStr,
      scanAll (matchYearAt (pystr "for the year ended")) (pyLower t) = some y →
      (scanAll (matchYearAt (pystr "year ended")) (pyLower t)).isSome = true) ∧
    (∀ s y kw : PyStr, scanAll (matchYearAt kw) s = some y → yearShape y) ∧
    (∀ d y : PyStr, findYear20Aux none d = some y → yearShape y) := by
  have hpy : ∀ d t : PyStr, parse_year d t =
      match scanAll (matchYearAt (pystr "for the year ended")) (pyLower t) with
      | some y => y
      | none =>
        match scanAll (matchYearAt (pystr "year ended")) (pyLower t) with
        | some y => y
        | none => (findYear20Aux none d).getD [] := fun _ _ => rfl
  refine ⟨?_, ?_, ?_, ?_, ?_, ?_⟩
  · intro d t y h
    rw [hpy, h]
  · intro d t y h1 h2
    rw [hpy, h1, h2]
  · intro d t h1 h2
    rw [hpy, h1, h2]
  · intro t y h
    obtain ⟨n, hn⟩ := scanAll_some_exists h
    cases hs : scanAll (matchYearAt (pystr "year ended")) (pyLower t) with
    | some v => rfl
    | none =>
      exfalso
      have hall := scanAll_none_all hs (n + 8)
      have hperm := matchYear_permissive hn
      rw [List.drop_drop] at hperm
      rw [hall] at hperm
      exact Option.noConfusion hperm
  · intro s y kw h
    obtain ⟨n, hn⟩ := scanAll_some_exists h
    exact matchYearAt_shape hn
  · exact fun d y h => findYear20Aux_shape h

/-- Closed witness for C9 at concrete dates and texts. -/
theorem claim_C9_year_chain_witness :
    parse_year [] (pystr "for the year ended 31 December 2021") = pystr "2021" ∧
    parse_year (pystr "2020-01-02") (pystr "nothing here") =
      (findYear20Aux none (pystr "2020-01-02")).getD [] ∧
    (findYear20Aux none (pystr "2020-01-02")).getD [] = pystr "2020" :=
  ⟨claim_C9_year_chain.1 [] (pystr "for the year ended 31 December 2021") (pystr "2021")
      (by decide),
   claim_C9_year_chain.2.2.1 (pystr "2020-01-02") (pystr "nothing here")
      (by decide) (by decide),
   by decide⟩

/-- Counterexample to C9 as stated: the filing date contains the 4-digit year
1999, the text matches no year-ended pattern, yet the resolver returns empty
rather than 1999 (the fallback only accepts years 2000 to 2099). -/
theorem claim_C9_counterexample :
    containsSub (pystr "1999") (pystr "1999-12-31") = true ∧
    parse_year (pystr "1999-12-31") (pystr "no match") = ([] : PyStr) ∧
    parse_year (pystr "1999-12-31") (pystr "no match") ≠ pystr "1999" := by
  refine ⟨by decide, by decide, by decide⟩

/-! ## Claim C10: alias priority in the keyword-proximity fallback -/

/-- Whether an alias occurs in the lowercased text with an auditor keyword in
the window around its first occurrence (the success condition of one step of
the fallback loop). -/
def alias_hit (lower raw : PyStr) : Bool :=
  match findOcc raw lower with
  | some idx => keyword_near (aliasWindow lower idx)
  | none => false

theorem aliasScan_eq_find? (lower : PyStr) (tbl : List (PyStr × PyStr)) :
    aliasScan lower tbl = (tbl.find? (fun e => alias_hit lower e.1)).map Prod.snd := by
  induction tbl with
  | nil => rfl
  | cons e rest ih =>
    cases hf : findOcc e.1 lower with
    | none =>
      rw [List.find?_cons_of_neg _ (by simp [alias_hit, hf])]
      simp only [aliasScan, hf]
      exact ih
    | some idx =>
      by_cases hk : keyword_near (aliasWindow lower idx) = true
      · rw [List.find?_cons_of_pos _ (by simp [alias_hit, hf, hk])]
        simp only [aliasScan, hf]
        rw [if_pos hk]
        rfl
      · rw [List.find?_cons_of_neg _ (by simp [alias_hit, hf, hk])]
        simp only [aliasScan, hf]
        rw [if_neg hk]
        exact ih

/-- C10: alias priority in the keyword-proximity fallback: when no structural
pattern yields a plausible auditor, the extractor returns the canonical name
of the first entry of the fixed alias table (in its iteration order) whose
alias occurs with an auditor keyword in the window, with medium confidence -
regardless of which alias occurs earliest in the text.  Determinism is
immediate: the extractor is a pure function of the text. -/
theorem claim_C10_alias_priority (text raw canon : PyStr)
    (hstruct : tryPatterns auditorPatterns (replaceNbsp text) = none)
    (hfind : AUDITOR_NORMALIZATION.find?
        (fun e => alias_hit (pyLower (replaceNbsp text)) e.1) = some (raw, canon)) :
    extract_external_auditor text = (canon, pystr "medium") := by
  have halias : aliasScan (pyLower (replaceNbsp text)) AUDITOR_NORMALIZATION = some canon := by
    rw [aliasScan_eq_find?, hfind]
    rfl
  exact extract_auditor_eq_alias hstruct halias

/-- Closed witness for C10: kpmg occurs before pwc in the text, both with the
keyword in range, yet the alias table order makes the extractor return PwC. -/
theorem claim_C10_alias_priority_witness :
    findOcc (pystr "kpmg") (pyLower (replaceNbsp (pystr "kpmg and pwc auditor"))) = some 0 ∧
    findOcc (pystr "pwc") (pyLower (replaceNbsp (pystr "kpmg and pwc auditor"))) = some 9 ∧
    extract_external_auditor (pystr "kpmg and pwc auditor") = (pystr "PwC", pystr "medium") :=
  ⟨by decide, by decide,
   claim_C10_alias_priority (pystr "kpmg and pwc auditor") (pystr "pwc") (pystr "PwC")
     (by decide) (by decide)⟩

end TenderRadar
